import Mathlib

/-!
Verification development for the novelDownloader core
(`novel_downloader/core/translator.py`, `epub_builder.py`, `cleaner.py`).

The Python source is shallowly embedded: pure helpers become Lean functions
on `String` / `List Char`; the mutable translator object becomes an explicit
`EngineState` record that is threaded through the functions; the concurrent
worker pool is modelled by a per-index outcome oracle together with an
arbitrary completion order (the order in which `as_completed` yields
futures); network calls and the lxml / codec library calls are modelled as
function parameters.  Python truthiness of strings ("" and None are falsy)
is modelled by `String` with `""` playing the role of `None` wherever the
source only ever tests truthiness.
-/

namespace NovelDL

/-- Python `str.strip()` whitespace test, restricted to the ASCII whitespace
characters that occur in the modelled inputs. -/
def isPySpace (c : Char) : Bool :=
  c = ' ' || c = '\t' || c = '\n' || c = '\r' || c = '\x0b' || c = '\x0c'

/-- Python `str.strip()` on code points: drop whitespace from both ends. -/
def pyStrip (s : String) : String :=
  ⟨((s.data.dropWhile isPySpace).reverse.dropWhile isPySpace).reverse⟩

/-- Python truthiness test `text and text.strip()` used throughout the
source for text/tail nodes. -/
def textNonWs (s : String) : Bool := s ≠ "" && pyStrip s ≠ ""

/-- Membership in the two CJK blocks of the regex
`[一-鿿㐀-䶿]` used by `is_chinese` / `count_chinese_chars`
(`cleaner.py` lines 568-579) and by `GoogleTranslator._contains_chinese` /
`_count_chinese` (`translator.py` lines 415-427). -/
def isChineseChar (c : Char) : Bool :=
  (0x4e00 ≤ c.toNat && c.toNat ≤ 0x9fff) || (0x3400 ≤ c.toNat && c.toNat ≤ 0x4dbf)

/-- `is_chinese` / `GoogleTranslator._contains_chinese`: presence of at least
one CJK code point (`re.search`). -/
def containsChinese (s : String) : Bool := s.data.any isChineseChar

/-- `count_chinese_chars` / `GoogleTranslator._count_chinese`: number of CJK
code points (`len(re.findall(...))`). -/
def countChinese (s : String) : Nat := (s.data.filter isChineseChar).length

/-! ## Translation engine state (`GoogleTranslator` instance attributes) -/

/-- The mutable per-object state of `GoogleTranslator` that the modelled
methods read or write: the translation cache (an insertion-ordered
association list models the Python dict), the failure log `failed_texts`,
the counters touched by the modelled paths, and the cancellation flag.
Lock-protected accesses are modelled as plain sequential accesses. -/
structure EngineState where
  cache : List (String × String) := []
  failedTexts : List (Nat × String) := []
  errors : Nat := 0
  cacheHits : Nat := 0
  completed : Nat := 0
  total : Nat := 0
  cancelRequested : Bool := false
deriving DecidableEq

/-- Dict lookup `self.cache[key]` / `key in self.cache`. -/
def cacheLookup (cache : List (String × String)) (k : String) : Option String :=
  (cache.find? (fun p => p.1 = k)).map (fun p => p.2)

/-- Dict assignment `self.cache[cache_key] = translated`: overwrite in place
when the key exists, else append (Python dicts keep insertion order). -/
def cacheInsert (cache : List (String × String)) (k v : String) :
    List (String × String) :=
  if (cacheLookup cache k).isSome then
    cache.map (fun p => if p.1 = k then (k, v) else p)
  else cache ++ [(k, v)]

/-- Truncated preview stored in the failure log (`translator.py` line 168):
`text[:50] + '...' if len(text) > 50 else text`. -/
def previewOf (text : String) : String :=
  if text.length > 50 then ⟨text.data.take 50⟩ ++ "..." else text

/-- One network attempt of `_translate_single` is modelled by an oracle
`attempt : Nat → Option String`: `none` is a raised request exception, and
`some s` is the translated text joined from the response sentences.  The
source treats a successful call as usable only when
`translated and translated.strip()`; an empty/whitespace result raises
`ValueError` and is handled like any other failure. -/
def attemptOk (r : Option String) : Bool :=
  match r with
  | some s => s ≠ "" && pyStrip s ≠ ""
  | none => false

/-- The retry loop `for attempt in range(self.max_retries)` of
`_translate_single`: the first attempt (starting at number `k`, with `n`
attempts left) whose result is usable, or `none` when every attempt fails
(backoff sleeps are not observable in the result and are dropped). -/
def firstUsable (attempt : Nat → Option String) : Nat → Nat → Option String
  | _, 0 => none
  | k, n + 1 =>
    match attempt k with
    | some s => if attemptOk (some s) then some s else firstUsable attempt (k + 1) n
    | none => firstUsable attempt (k + 1) n

/-- `GoogleTranslator._translate_single` (`translator.py` lines 79-175):
cancellation and empty-input early exits, cache hit, then the per-call retry
loop; on total failure the original text is returned and `(index, preview)`
is appended to `failed_texts`.  The result is always returned, never an
exception.  (The `requests`/`paragraphs_translated`/`characters_translated`
counters and the optional inter-request sleep are not modelled.) -/
def translateSingle (st : EngineState) (maxRetries : Nat)
    (attempt : Nat → Option String) (text : String) (index : Nat) :
    EngineState × Nat × String :=
  if st.cancelRequested then (st, index, text)
  else if text = "" || pyStrip text = "" then (st, index, text)
  else
    let key := pyStrip text
    match cacheLookup st.cache key with
    | some v =>
      ({ st with cacheHits := st.cacheHits + 1, completed := st.completed + 1 },
        index, v)
    | none =>
      match firstUsable attempt 0 maxRetries with
      | some s =>
        ({ st with cache := cacheInsert st.cache key s,
                   completed := st.completed + 1 }, index, s)
      | none =>
        ({ st with failedTexts := st.failedTexts ++ [(index, previewOf text)],
                   errors := st.errors + 1,
                   completed := st.completed + 1 }, index, text)

/-! ## `translate_texts`: positional collection over a worker pool -/

/-- The result-collection loop of `translate_texts` (lines 211-226): each
future for input index `i` yields the pair `(i, f i texts[i])` where `f` is
the per-index outcome oracle (what `_translate_single` returned for that
index under the actual interleaving); `order` is the order in which
`as_completed` yields the futures; every completed pair is written
positionally into a preallocated `[''] * len(texts)` result list. -/
def poolRun (texts : List String) (f : Nat → String → String)
    (order : List Nat) : List String :=
  order.foldl (fun res i => res.set i (f i (texts.getD i "")))
    (List.replicate texts.length "")

/-- The per-run reset at the top of `translate_texts` (lines 202-206):
`self._cancel_requested = False`, `self.total = len(texts)`,
`self.completed = 0`, `self.failed_texts = []`. -/
def resetForRun (st : EngineState) (texts : List String) : EngineState :=
  { st with cancelRequested := false, total := texts.length, completed := 0,
            failedTexts := [] }

/-- `GoogleTranslator.translate_texts` (lines 184-227): empty input returns
`[]` without touching the state; otherwise the per-run state is reset and
the pool results are collected positionally.  The state effects of the
individual worker calls (modelled separately by `translateSingle`) are
abstracted into the outcome oracle `f`. -/
def translateTexts (st : EngineState) (texts : List String)
    (f : Nat → String → String) (order : List Nat) :
    EngineState × List String :=
  if texts.isEmpty then (st, [])
  else (resetForRun st texts, poolRun texts f order)

/-! ## `translate_texts_with_retry`: scan, escalation tables, stall logic -/

/-- `WORKER_STEPS = [0, 50, 30, 20, 10, 5]` (`0` = use initial
`max_workers`). -/
def workerSteps : List Nat := [0, 50, 30, 20, 10, 5]

/-- `INTERVAL_STEPS = [0.0, 0.3, 0.5, 1.0, 1.5, 2.0]`, in tenths of a
second so the table stays in `Nat`. -/
def intervalSteps10 : List Nat := [0, 3, 5, 10, 15, 20]

/-- `COOLDOWN_STEPS = [0, 5, 10, 20, 30, 60]` (seconds). -/
def cooldownSteps : List Nat := [0, 5, 10, 20, 30, 60]

/-- `EXTRA_RETRIES = [0, 0, 1, 1, 2, 3]`. -/
def extraRetrySteps : List Nat := [0, 0, 1, 1, 2, 3]

/-- `_get_step(table, pass_num)`: index the escalation table by the pass
number, clamped to the last entry. -/
def getStep (table : List Nat) (passNum : Nat) : Nat :=
  table.getD (min passNum (table.length - 1)) 0

/-- The parameters a retry pass ends up with after stall detection. -/
structure PassSettings where
  workersCap : Nat
  interval10 : Nat
  cooldown : Nat
  extraRetry : Nat
  stallCount : Nat
deriving DecidableEq

/-- Parameter selection plus stall detection for one retry pass
(`translator.py` lines 305-321): pick the four table steps for
`retryPass`; if a previous pass exists and the failing count did not
strictly decrease, increment the stall counter, else reset it to zero; when
the incremented counter has reached 3, force
`cooldown = max(cooldown, 90)`, `interval = max(interval, 2.5)` and
`workers_cap = min(workers_cap or 3, 3)` (intervals in tenths). -/
def passSettings (retryPass : Nat) (prevFailedCount : Option Nat)
    (curFailedCount : Nat) (stallCount : Nat) : PassSettings :=
  let w := getStep workerSteps retryPass
  let iv := getStep intervalSteps10 retryPass
  let cd := getStep cooldownSteps retryPass
  let er := getStep extraRetrySteps retryPass
  match prevFailedCount with
  | some p =>
    if curFailedCount ≥ p then
      let s := stallCount + 1
      if s ≥ 3 then
        ⟨min (if w = 0 then 3 else w) 3, max iv 25, max cd 90, er, s⟩
      else ⟨w, iv, cd, er, s⟩
    else ⟨w, iv, cd, er, 0⟩
  | none => ⟨w, iv, cd, er, 0⟩

/-- The scan step of the retry loop (lines 290-295): indices whose current
result is truthy, contains Chinese, and has a Chinese-code-point count
strictly above 5. -/
def failedIndices (results : List String) : List Nat :=
  ((results.enum).filter
    (fun p => p.2 ≠ "" && containsChinese p.2 && decide (countChinese p.2 > 5))).map
    Prod.fst

/-- The overwrite step at the end of a retry pass (lines 383-389):
`for j, i in enumerate(failed_indices)` take the pass output
`retry_results[j]` and overwrite `results[i]` with it exactly when it is
truthy and `not is_chinese_fn(...)` — i.e. when it contains no Chinese code
point at all. -/
def applyStep (res : List String) (p : Nat × String) : List String :=
  if p.2 ≠ "" && !containsChinese p.2 then res.set p.1 p.2 else res

/-- The loop `for j, i in enumerate(failed_indices)` as a fold over the
`(index, pass output)` pairs. -/
def applyImproved (results : List String) (failedIdx : List Nat)
    (retryResults : List String) : List String :=
  (failedIdx.zip retryResults).foldl applyStep results

/-- The inter-pass cooldown loop (lines 341-344): sleep in 1-second chunks,
checking the cancellation flag before each chunk.  `cancelled k` is the
flag's value at the check performed after `k` seconds of cooldown; the
result is the number of whole seconds actually slept. -/
def cooldownSlept : Nat → (Nat → Bool) → Nat
  | 0, _ => 0
  | d + 1, cancelled =>
    if cancelled 0 then 0 else 1 + cooldownSlept d (fun k => cancelled (k + 1))

/-! ## EPUB builder (`TranslatedEPUBBuilder.build_with_translation`) -/

/-- The placeholder body substituted into a chapter with falsy content
(`epub_builder.py` line 346). -/
def placeholderBody : String := "<p>Chapter content not available.</p>"

/-- The chapter-content validation step (`epub_builder.py` lines 342-346):
a warning is printed when the content is falsy or its stripped length is
below 10, but the placeholder is substituted only when the content is
falsy. -/
def validateContent (content : String) : String :=
  if content = "" then placeholderBody else content

/-- The validation loop over all chapters. -/
def validateChapters (contents : List String) : List String :=
  contents.map validateContent

/-- Python `str.replace(old, new, 1)` on code points: replace the leftmost
occurrence of `old` (if any) by `new`. -/
def pyReplaceFirst (old new : List Char) : List Char → List Char
  | [] => if old.isPrefixOf ([] : List Char) then new ++ ([] : List Char).drop old.length else []
  | c :: rest =>
    if old.isPrefixOf (c :: rest) then new ++ (c :: rest).drop old.length
    else c :: pyReplaceFirst old new rest

/-- The translation-application loop for the `'content'` entries of one
chapter (`epub_builder.py` lines 321-335): each `(original, translated)`
pair is applied in collection order, and only when `translated` is truthy
and differs from `original`, as
`chapters[idx].content.replace(original, translated[i], 1)` — a single
first-occurrence substitution. -/
def applyContentSegs (body : List Char) (segs : List (List Char × List Char)) :
    List Char :=
  segs.foldl
    (fun b p => if p.2 ≠ [] && p.2 ≠ p.1 then pyReplaceFirst p.1 p.2 b else b)
    body

/-! ## Regular-expression machinery for the cleaner's fixed pattern shapes

The watermark patterns of `DEFAULT_WATERMARKS` and the two declaration-
stripping substitutions of `parse_xhtml` use only these shapes: literal
runs, `.{0,k}` (greedy, `.` excludes newline), `[class]+` (greedy, over
code-point ranges), `[^chars]*` (greedy), a single character class, and
`\s*`.  Matching follows Python `re`: leftmost match wins, greedy
quantifiers backtrack from longest, `re.sub` replaces non-overlapping
matches left to right and never rescans a replacement. -/

/-- One atom of a pattern. -/
inductive PatAtom where
  | lit : List Char → PatAtom
  | anyUpTo : Nat → PatAtom
  | clsPlus : List (Nat × Nat) → PatAtom
  | clsNegStar : List Char → PatAtom
  | cls1 : List Char → PatAtom
  | wsStar : PatAtom
deriving DecidableEq

/-- A pattern is a sequence of atoms. -/
abbrev RePat := List PatAtom

/-- ASCII case folding for `re.IGNORECASE`; the patterns' only cased
literals are ASCII. -/
def foldCi (ci : Bool) (c : Char) : Char := if ci then c.toLower else c

/-- Literal match at the head of the input, optionally case-insensitive. -/
def litMatch (ci : Bool) : List Char → List Char → Bool
  | [], _ => true
  | _ :: _, [] => false
  | a :: as, b :: bs => foldCi ci a = foldCi ci b && litMatch ci as bs

/-- Membership in a union of inclusive code-point ranges. -/
def inRanges (rs : List (Nat × Nat)) (c : Char) : Bool :=
  rs.any (fun r => r.1 ≤ c.toNat && c.toNat ≤ r.2)

/-- Length of the maximal prefix whose characters satisfy `p`. -/
def takeCount (p : Char → Bool) : List Char → Nat
  | [] => 0
  | c :: r => if p c then takeCount p r + 1 else 0

/-- Candidate lengths `m, m-1, ..., 0` in greedy preference order. -/
def descLens (m : Nat) : List Nat := (List.range (m + 1)).reverse

/-- Python `\s` (ASCII part). -/
def isReWs (c : Char) : Bool :=
  c = ' ' || c = '\t' || c = '\n' || c = '\r' || c = '\x0b' || c = '\x0c'

/-- Candidate consumed lengths of one atom at the head of `s`, in greedy
preference order (longest first for quantified atoms). -/
def atomLens (ci : Bool) (a : PatAtom) (s : List Char) : List Nat :=
  match a with
  | .lit w => if litMatch ci w s then [w.length] else []
  | .anyUpTo k => descLens (min k (takeCount (fun c => c ≠ '\n') s))
  | .clsPlus rs =>
    let m := takeCount (inRanges rs) s
    if m = 0 then [] else (descLens m).dropLast
  | .clsNegStar bad => descLens (takeCount (fun c => !bad.contains c) s)
  | .cls1 chars =>
    match s with
    | [] => []
    | c :: _ => if chars.contains c then [1] else []
  | .wsStar => descLens (takeCount isReWs s)

/-- Candidate consumed lengths of a pattern at the head of `s`, in
backtracking preference order; the head of the list is the length the
regex engine commits to. -/
def seqLens (ci : Bool) : RePat → List Char → List Nat
  | [], _ => [0]
  | a :: rest, s =>
    (atomLens ci a s).flatMap (fun n => (seqLens ci rest (s.drop n)).map (n + ·))

/-- The committed match length of a pattern at the head of `s`, if any. -/
def matchLen (ci : Bool) (p : RePat) (s : List Char) : Option Nat :=
  (seqLens ci p s).head?

/-- Worker for `re.sub(pattern, '', s)`: scan left to right; at each
position either commit to the match and skip it, or keep the character.
The fuel equals the input length; every pattern in this file consumes at
least one character on a match, and a zero-length match keeps the
character, as `re.sub` would. -/
def subAllAux (ci : Bool) (p : RePat) : Nat → List Char → List Char
  | 0, s => s
  | _ + 1, [] => []
  | fuel + 1, c :: rest =>
    match matchLen ci p (c :: rest) with
    | some n =>
      if n = 0 then c :: subAllAux ci p fuel rest
      else subAllAux ci p fuel ((c :: rest).drop n)
    | none => c :: subAllAux ci p fuel rest

/-- `re.sub(pattern, '', s)`: remove all non-overlapping matches. -/
def reSub (ci : Bool) (p : RePat) (s : List Char) : List Char :=
  subAllAux ci p s.length s

/-- Shape `lit.{0,k}` of a watermark pattern. -/
def wm (l : String) (k : Nat) : RePat := [.lit l.data, .anyUpTo k]

/-- Shape `lit1.{0,k}lit2` of a watermark pattern. -/
def wm2 (l1 : String) (k : Nat) (l2 : String) : RePat :=
  [.lit l1.data, .anyUpTo k, .lit l2.data]

/-- Fullwidth `a-z A-Z 0-9` ranges. -/
def fwAlnum : List (Nat × Nat) := [(0xFF41, 0xFF5A), (0xFF21, 0xFF3A), (0xFF10, 0xFF19)]

/-- Fullwidth `a-z A-Z` ranges. -/
def fwAlpha : List (Nat × Nat) := [(0xFF41, 0xFF5A), (0xFF21, 0xFF3A)]

/-- `DEFAULT_WATERMARKS` (`cleaner.py` lines 65-100), compiled with
`re.IGNORECASE` as in `ContentCleaner.__init__`; character classes are
transcribed as inclusive code-point ranges. -/
def defaultWatermarks : List RePat :=
  [ wm2 "本書由" 30 "首發", wm2 "本文由" 30 "首發", wm2 "正版請" 30 "閱讀",
    wm2 "請到" 30 "閱讀", wm2 "最新章節" 30 "閱讀", wm "手機閱讀" 50,
    wm "訪問下載" 50, wm "更多精彩" 50, wm "歡迎廣大書友" 50,
    wm "喜歡請收藏" 50, wm "請記住本書" 50, wm "百度搜索" 50,
    wm "最快更新" 50, wm "無彈窗" 30,
    wm "關注公眾號" 50, wm "微信公眾號" 50, wm "掃碼關注" 50,
    wm "點擊下載" 50, wm "APP下載" 50,
    wm "本書首發" 80,
    wm "提供給你無錯章節" 50,
    wm "台灣小說網" 30,
    [.lit "twkan.com".data],
    [.clsPlus fwAlnum, .lit ".".data, .clsPlus fwAlpha],
    [.clsPlus [(0x1D552, 0x1D56B), (0x1D538, 0x1D56B), (0x1D7D8, 0x1D7E1)],
      .lit ".".data, .clsPlus [(0x1D552, 0x1D56B), (0x1D538, 0x1D56B)]],
    [.clsPlus [(0x1D5BA, 0x1D5D3), (0x1D5A0, 0x1D5D3), (0x1D7E2, 0x1D7EB)],
      .lit ".".data, .clsPlus [(0x1D5BA, 0x1D5D3), (0x1D5A0, 0x1D5D3)]],
    [.clsPlus [(0x1D5BA, 0x1D5D3), (0x1D5A0, 0x1D5B9)],
      .lit ".".data, .clsPlus [(0x1D5BA, 0x1D5D3), (0x1D5A0, 0x1D5B9)]],
    [.clsPlus [(0x1D5A0, 0x1D5D3)], .lit ".".data, .clsPlus [(0x1D5A0, 0x1D5D3)]],
    [.clsPlus [(0x1D68A, 0x1D6A3), (0x1D670, 0x1D689)],
      .lit ".".data, .clsPlus [(0x1D68A, 0x1D6A3)]],
    [.clsPlus [(0x1D400, 0x1D7FF)], .lit ".".data, .clsPlus [(0x1D400, 0x1D7FF)]],
    [.lit "→".data, .wsStar,
      .clsPlus ((0x1D400, 0x1D7FF) :: fwAlnum),
      .lit ".".data, .clsPlus ((0x1D400, 0x1D7FF) :: fwAlpha)] ]

/-- `INVISIBLE_CHARS` (`cleaner.py` line 50). -/
def invisibleChars : List Char :=
  ['\u200B', '\u200C', '\u200D', '\uFEFF', '\u00AD', '\u2060', '\u180E',
   '\u200E', '\u200F', '\u202A', '\u202B', '\u202C', '\u202D', '\u202E']

/-- `ContentCleaner.clean_text` (`cleaner.py` lines 140-164): falsy text is
returned unchanged; otherwise drop the invisible characters, normalise the
non-breaking hyphen `‑` to `-`, then run every watermark pattern as a
`re.sub` deletion in list order.  (The statistics counters are not
modelled.) -/
def cleanText (patterns : List RePat) (s : String) : String :=
  if s = "" then s
  else
    let t1 := s.data.filter (fun c => !invisibleChars.contains c)
    let t2 := t1.map (fun c => if c = '\u2011' then '-' else c)
    ⟨patterns.foldl (fun t p => reSub true p t) t2⟩

/-! ## lxml element-tree model

An lxml element carries a tag, an ordered attribute dict, optional leading
text, a child list, and optional tail text; comments are separate nodes.
`text`/`tail` are modelled as `String` with `""` standing for `None`: every
modelled operation only ever tests truthiness, where the two coincide.
Tree-walking functions take a fuel argument (structural recursion on `Nat`,
so every definition evaluates inside the kernel); fuel bounds only the
nesting depth and all modelled documents are far shallower than the fuel
used. -/

inductive XNode where
  | elem : String → List (String × String) → String → List XNode → String → XNode
  | comment : String → String → XNode

/-- Tail text of a node. -/
def XNode.tailStr : XNode → String
  | .elem _ _ _ _ tl => tl
  | .comment _ tl => tl

/-- Replace the tail text of a node. -/
def XNode.setTail : XNode → String → XNode
  | .elem t a tx ch _, tl => .elem t a tx ch tl
  | .comment tx _, tl => .comment tx tl

/-- Comment test (`child.tag not in [etree.Comment]` checks). -/
def XNode.isComment : XNode → Bool
  | .elem _ _ _ _ _ => false
  | .comment _ _ => true

/-- Tag equality for an element node; a comment matches no tag string. -/
def XNode.tagIs (n : XNode) (s : String) : Bool :=
  match n with
  | .elem t _ _ _ _ => t == s
  | .comment _ _ => false

/-- Attribute lookup `elem.get(k)`. -/
def attrGet (attrs : List (String × String)) (k : String) : Option String :=
  (attrs.find? (fun p => p.1 == k)).map (fun p => p.2)

/-- Attribute lookup with default `elem.get(k, d)`. -/
def attrGetD (attrs : List (String × String)) (k d : String) : String :=
  (attrGet attrs k).getD d

/-- Attribute assignment `elem.set(k, v)` (in-place update, else append). -/
def attrSet (attrs : List (String × String)) (k v : String) :
    List (String × String) :=
  if (attrGet attrs k).isSome then
    attrs.map (fun p => if p.1 == k then (k, v) else p)
  else attrs ++ [(k, v)]

/-- Attribute deletion `del elem.attrib[k]`. -/
def attrDel (attrs : List (String × String)) (k : String) :
    List (String × String) :=
  attrs.filter (fun p => p.1 != k)

/-- `XHTML_NS` (`cleaner.py` line 30). -/
def xhtmlNS : String := "http://www.w3.org/1999/xhtml"

/-- The Clark-notation tag `XHTML(name)` = `{ns}name` (`cleaner.py` line 32). -/
def nsTag (name : String) : String := "\x7b" ++ xhtmlNS ++ "\x7d" ++ name

/-- Whether a tag string is already namespaced (`elem.tag.startswith('{')`). -/
def tagNamespaced (t : String) : Bool :=
  match t.data with
  | [] => false
  | c :: _ => c = '\x7b'

/-- Apply `f` to every element node of the tree, root included
(materialised `findall`/`iter` passes whose `f` only rewrites tag or
attributes, so traversal is unaffected by the rewrite). -/
def mapNodes : Nat → (XNode → XNode) → XNode → XNode
  | 0, _, n => n
  | fuel + 1, f, .elem t a tx ch tl =>
    match f (.elem t a tx ch tl) with
    | .elem t' a' tx' ch' tl' => .elem t' a' tx' (ch'.map (mapNodes fuel f)) tl'
    | c => c
  | _ + 1, _, .comment tx tl => .comment tx tl

/-- Child-list worker for `_remove_element_keep_tail` passes: walk the
children left to right; a removed node's truthy tail is appended to the
preceding text slot (the parent's `text` before any kept sibling, the
previous kept sibling's `tail` afterwards); kept nodes are processed
recursively by `rec`.  `pre` is the current preceding text slot and the
returned string is its final value. -/
def remChAux (p : XNode → Bool) (rec : XNode → XNode) :
    String → List XNode → String × List XNode
  | pre, [] => (pre, [])
  | pre, n :: rest =>
    if p n then remChAux p rec (pre ++ n.tailStr) rest
    else
      let n' := rec n
      let (tl', rest') := remChAux p rec n'.tailStr rest
      (pre, n'.setTail tl' :: rest')

/-- A full `findall` + `_remove_element_keep_tail` pass: remove every
matching node of the tree (the match is judged on the node as it stands
when visited in document order, which for these passes equals its state at
the start of the pass), splicing tails per `_remove_element_keep_tail`
(`cleaner.py` lines 544-557). -/
def removeMatching : Nat → (XNode → Bool) → XNode → XNode
  | 0, _, n => n
  | fuel + 1, p, .elem t a tx ch tl =>
    let (tx', ch') := remChAux p (removeMatching fuel p) tx ch
    .elem t a tx' ch' tl
  | _ + 1, _, .comment tx tl => .comment tx tl

/-- Child-list worker for plain `parent.remove(elem)` passes (no tail
splicing; used by the charset-meta removal in `fix_structure`). -/
def remPlainAux (p : XNode → Bool) (rec : XNode → XNode) :
    List XNode → List XNode
  | [] => []
  | n :: rest =>
    if p n then remPlainAux p rec rest
    else rec n :: remPlainAux p rec rest

/-- Remove every matching descendant with `getparent().remove(...)`,
dropping the removed node's tail. -/
def removePlain : Nat → (XNode → Bool) → XNode → XNode
  | 0, _, n => n
  | fuel + 1, p, .elem t a tx ch tl =>
    .elem t a tx (remPlainAux p (removePlain fuel p) ch) tl
  | _ + 1, _, .comment tx tl => .comment tx tl

/-- List worker for `find('.//...')`-and-mutate: transform the first node
(in document order: a node before its subtree, a subtree before the next
sibling) satisfying `p` with `f`; `recInside` handles the descent into a
non-matching node. -/
def mapFirstList (p : XNode → Bool) (f : XNode → XNode)
    (recInside : XNode → Bool × XNode) : List XNode → Bool × List XNode
  | [] => (false, [])
  | n :: rest =>
    if p n then (true, f n :: rest)
    else
      let (fd, n') := recInside n
      if fd then (true, n' :: rest)
      else
        let (fd2, rest') := mapFirstList p f recInside rest
        (fd2, n' :: rest')

/-- `root.find('.//tag')` followed by in-place mutation of the found
element: apply `f` to the first matching proper descendant, reporting
whether one was found. -/
def mapFirstInside : Nat → (XNode → Bool) → (XNode → XNode) → XNode →
    Bool × XNode
  | 0, _, _, n => (false, n)
  | fuel + 1, p, f, .elem t a tx ch tl =>
    let (fd, ch') := mapFirstList p f (mapFirstInside fuel p f) ch
    (fd, .elem t a tx ch' tl)
  | _ + 1, _, _, c => (false, c)

/-- `head.find('tag')` (direct children only) followed by in-place
mutation. -/
def mapFirstChild (p : XNode → Bool) (f : XNode → XNode) : XNode →
    Bool × XNode
  | .elem t a tx ch tl =>
    let r := mapFirstList p f (fun n => (false, n)) ch
    (r.1, .elem t a tx r.2 tl)
  | c => (false, c)

/-- Children of a node (`len(elem)`, iteration). -/
def XNode.childrenOf : XNode → List XNode
  | .elem _ _ _ ch _ => ch
  | .comment _ _ => []

/-- Text of a node. -/
def XNode.textStr : XNode → String
  | .elem _ _ tx _ _ => tx
  | .comment tx _ => tx

/-- Attributes of a node (a comment has none). -/
def XNode.attrsOf : XNode → List (String × String)
  | .elem _ a _ _ _ => a
  | .comment _ _ => []

/-- Retag an element (`elem.tag = ...`). -/
def retagTo (t : String) : XNode → XNode
  | .elem _ a tx ch tl => .elem t a tx ch tl
  | c => c

/-- Python `str.lower()` (ASCII case, which covers the modelled
attribute values). -/
def strLower (s : String) : String := ⟨s.data.map Char.toLower⟩

/-- Python `str.split()` with no argument: split on whitespace runs,
yielding no empty words. -/
def pySplitAux : List Char → List Char → List String
  | [], acc => if acc.isEmpty then [] else [⟨acc.reverse⟩]
  | c :: r, acc =>
    if isPySpace c then
      if acc.isEmpty then pySplitAux r [] else ⟨acc.reverse⟩ :: pySplitAux r []
    else pySplitAux r (c :: acc)

/-- Python `str.split()` on a string. -/
def pySplitWs (s : String) : List String := pySplitAux s.data []

/-! ### `fix_structure` (`cleaner.py` lines 220-276) -/

/-- Namespace any element whose tag does not start with `{`
(`fix_structure` lines 228-230; a comment's tag is not a string and is
skipped). -/
def nsify (n : XNode) : XNode :=
  match n with
  | .elem t a tx ch tl => if !tagNamespaced t then .elem (nsTag t) a tx ch tl else n
  | c => c

/-- Force a non-empty title text (`fix_structure` lines 251-252). -/
def fixTitleText (n : XNode) : XNode :=
  match n with
  | .elem t a tx ch tl => if !textNonWs tx then .elem t a "Unknown" ch tl else n
  | c => c

/-- The content-type metas removed by `fix_structure` lines 254-260: a
`meta` (namespaced or not) whose `http-equiv` attribute is present and
equals `content-type` case-insensitively. -/
def metaPred (n : XNode) : Bool :=
  (n.tagIs (nsTag "meta") || n.tagIs "meta") &&
  (match attrGet n.attrsOf "http-equiv" with
   | some v => strLower v == "content-type"
   | none => false)

/-- The canonical charset meta inserted at the head's front
(`fix_structure` lines 262-265). -/
def charsetMeta : XNode :=
  .elem (nsTag "meta")
    [("http-equiv", "Content-Type"), ("content", "text/html; charset=utf-8")]
    "" [] ""

/-- The title/meta part of `fix_structure` (lines 243-265), applied to the
head element: ensure a direct `title` child with non-whitespace text
(created with text `Unknown` and appended when missing), remove the
content-type metas anywhere under the head (plain `remove`, no tail
splice), then insert the canonical charset meta at index 0. -/
def fixHeadContents (fuel : Nat) (h : XNode) : XNode :=
  let r1 := mapFirstChild (fun n => n.tagIs (nsTag "title")) fixTitleText h
  let r2 :=
    if r1.1 then r1
    else mapFirstChild (fun n => n.tagIs "title")
      (fun t => fixTitleText (retagTo (nsTag "title") t)) r1.2
  let h3 :=
    if r2.1 then r2.2
    else
      match r2.2 with
      | .elem t a tx ch tl =>
        .elem t a tx (ch ++ [.elem (nsTag "title") [] "Unknown" [] ""]) tl
      | c => c
  let h4 := removePlain fuel metaPred h3
  match h4 with
  | .elem t a tx ch tl => .elem t a tx (charsetMeta :: ch) tl
  | c => c

/-- `ContentCleaner.fix_structure` (`cleaner.py` lines 220-276): retag a
bare `html` root, move every element into the XHTML namespace, ensure a
head (searched as a namespaced then plain descendant, created at the
root's front when missing) with a proper title and a single canonical
charset meta, and ensure a body (created at the root's end when
missing). -/
def fixStructure (fuel : Nat) (root : XNode) : XNode :=
  let r1 :=
    match root with
    | .elem t a tx ch tl => if t == "html" then .elem (nsTag "html") a tx ch tl else root
    | c => c
  let r2 := mapNodes fuel nsify r1
  let s1 := mapFirstInside fuel (fun n => n.tagIs (nsTag "head")) (fixHeadContents fuel) r2
  let s2 :=
    if s1.1 then s1
    else mapFirstInside fuel (fun n => n.tagIs "head")
      (fun h => fixHeadContents fuel (retagTo (nsTag "head") h)) s1.2
  let r3 :=
    if s2.1 then s2.2
    else
      match s2.2 with
      | .elem t a tx ch tl =>
        .elem t a tx (fixHeadContents fuel (.elem (nsTag "head") [] "" [] "") :: ch) tl
      | c => c
  let b1 := mapFirstInside fuel (fun n => n.tagIs (nsTag "body")) id r3
  let b2 :=
    if b1.1 then b1
    else mapFirstInside fuel (fun n => n.tagIs "body") (retagTo (nsTag "body")) b1.2
  if b2.1 then b2.2
  else
    match b2.2 with
    | .elem t a tx ch tl => .elem t a tx (ch ++ [.elem (nsTag "body") [] "" [] ""]) tl
    | c => c

/-! ### `clean_content` (`cleaner.py` lines 282-361) -/

/-- `REMOVE_ELEMENTS` (`cleaner.py` line 47; the source holds these in a
set, whose iteration order does not affect the resulting tree — the model
fixes the literal order). -/
def removeElementTags : List String :=
  ["script", "embed", "object", "form", "input", "button", "textarea"]

/-- `REMOVE_DIV_CLASSES` (`cleaner.py` line 53). -/
def adClasses : List String := ["txtad", "ad", "advertisement", "ads", "adsbygoogle"]

/-- The emptiness test of the ad-div removal (`clean_content` lines
298-307): truthy stripped text, or any child that is a non-comment or a
comment with truthy stripped tail. -/
def hasAdContent : XNode → Bool
  | .elem _ _ tx ch _ =>
    textNonWs tx || ch.any (fun c => !c.isComment || textNonWs c.tailStr)
  | .comment _ _ => false

/-- An ad div eligible for removal: a `div` whose lowercased class words
intersect `REMOVE_DIV_CLASSES` and which has no content. -/
def adDivPred (dtag : String) (n : XNode) : Bool :=
  n.tagIs dtag &&
  ((pySplitWs (strLower (attrGetD n.attrsOf "class" ""))).any
    (fun w => adClasses.contains w)) &&
  !hasAdContent n

/-- `DEPRECATED_TAG_CONVERSIONS` (`cleaner.py` lines 56-62); the attribute
dict is at most a single `style` entry. -/
def deprecatedConversions : List (String × String × Option (String × String)) :=
  [("center", "div", some ("style", "text-align:center")),
   ("u", "span", some ("style", "text-decoration:underline")),
   ("s", "span", some ("style", "text-decoration:line-through")),
   ("strike", "span", some ("style", "text-decoration:line-through")),
   ("font", "span", none)]

/-- One deprecated-tag conversion (`clean_content` lines 313-321): retag a
matching element (namespaced pass keeps the namespace) and merge the added
attribute with `;`-concatenation when one already exists. -/
def convertDeprecated (oldT newT : String) (nsd : Bool)
    (attrsAdd : Option (String × String)) (n : XNode) : XNode :=
  let target := if nsd then nsTag oldT else oldT
  match n with
  | .elem t a tx ch tl =>
    if t == target then
      let t' := if nsd then nsTag newT else newT
      let a' :=
        match attrsAdd with
        | some kv =>
          let existing := attrGetD a kv.1 ""
          attrSet a kv.1 (if existing ≠ "" then existing ++ "; " ++ kv.2 else kv.2)
        | none => a
      .elem t' a' tx ch tl
    else n
  | c => c

/-- The inline tags of the empty-tag removal (`clean_content` line 324),
in source order. -/
def inlineTags : List String := ["a", "i", "b", "u", "span", "em", "strong"]

/-- An empty inline element eligible for removal (`clean_content` lines
326-330): matching tag, no `id`/`name` attribute, no children, no truthy
stripped text. -/
def emptyInlinePred (tg : String) (n : XNode) : Bool :=
  n.tagIs tg && (attrGet n.attrsOf "id").isNone && (attrGet n.attrsOf "name").isNone &&
  n.childrenOf.isEmpty && !textNonWs n.textStr

/-- The `<br>`-with-content conversion (`clean_content` lines 333-337): a
`br` with children or truthy stripped text is retagged to a namespaced
`div` (the source always assigns `XHTML('div')`). -/
def convertBr (brtag : String) (n : XNode) : XNode :=
  match n with
  | .elem t a tx ch tl =>
    if t == brtag && (!ch.isEmpty || textNonWs tx) then .elem (nsTag "div") a tx ch tl
    else n
  | c => c

/-- The text-cleaning sweep (`clean_content` lines 340-344): run
`clean_text` on every truthy `text` and `tail` of every node, comments
included (`root.iter()` yields comments as well). -/
def cleanTexts : Nat → List RePat → XNode → XNode
  | 0, _, n => n
  | fuel + 1, pats, .elem t a tx ch tl =>
    .elem t a (if tx ≠ "" then cleanText pats tx else tx)
      (ch.map (cleanTexts fuel pats))
      (if tl ≠ "" then cleanText pats tl else tl)
  | _ + 1, pats, .comment tx tl =>
    .comment (if tx ≠ "" then cleanText pats tx else tx)
      (if tl ≠ "" then cleanText pats tl else tl)

/-- Child-list worker for the duplicate-id sweep, threading the set of
seen ids in document order. -/
def dedupList (recNode : List String → XNode → List String × XNode) :
    List String → List XNode → List String × List XNode
  | seen, [] => (seen, [])
  | seen, n :: rest =>
    let (seen', n') := recNode seen n
    let (seen'', rest') := dedupList recNode seen' rest
    (seen'', n' :: rest')

/-- The duplicate-id sweep (`clean_content` lines 347-355): walk all
nodes in document order; a truthy `id` already seen is deleted, otherwise
recorded. -/
def dedupNode : Nat → List String → XNode → List String × XNode
  | 0, seen, n => (seen, n)
  | fuel + 1, seen, .elem t a tx ch tl =>
    let step :=
      match attrGet a "id" with
      | some v =>
        if v ≠ "" then
          if seen.contains v then (attrDel a "id", seen) else (a, seen ++ [v])
        else (a, seen)
      | none => (a, seen)
    let rest := dedupList (dedupNode fuel) step.2 ch
    (rest.1, .elem t step.1 tx rest.2 tl)
  | _ + 1, seen, .comment tx tl => (seen, .comment tx tl)

/-- `ContentCleaner.clean_content` (`cleaner.py` lines 282-361): remove
forbidden elements (namespaced pass then plain pass per tag, keeping
tails), remove empty ad divs, convert deprecated tags, remove empty inline
tags, convert `br`-with-content to `div`, clean all text nodes, and
de-duplicate ids.  `_convert_br_sequences_to_p` (lines 363-388) detects a
pattern but performs no mutation, so it is the identity here. -/
def cleanContent (fuel : Nat) (pats : List RePat) (root : XNode) : XNode :=
  let r1 := removeElementTags.foldl
    (fun r tag =>
      removeMatching fuel (fun n => n.tagIs tag)
        (removeMatching fuel (fun n => n.tagIs (nsTag tag)) r)) root
  let r2 := removeMatching fuel (adDivPred "div")
    (removeMatching fuel (adDivPred (nsTag "div")) r1)
  let r3 := deprecatedConversions.foldl
    (fun r conv =>
      mapNodes fuel (convertDeprecated conv.1 conv.2.1 false conv.2.2)
        (mapNodes fuel (convertDeprecated conv.1 conv.2.1 true conv.2.2) r)) r2
  let r4 := inlineTags.foldl
    (fun r tag =>
      removeMatching fuel (emptyInlinePred tag)
        (removeMatching fuel (emptyInlinePred (nsTag tag)) r)) r3
  let r5 := mapNodes fuel (convertBr "br") (mapNodes fuel (convertBr (nsTag "br")) r4)
  let r6 := cleanTexts fuel pats r5
  (dedupNode fuel [] r6).2

/-- The tree-level normalisation pipeline of `process_xhtml` (`cleaner.py`
lines 431-449) between parse and serialize: `fix_structure` then
`clean_content`. -/
def normalizeTree (fuel : Nat) (pats : List RePat) (root : XNode) : XNode :=
  cleanContent fuel pats (fixStructure fuel root)

/-! ### `parse_xhtml` (`cleaner.py` lines 170-214)

The decode loop tries `utf-8`, `gbk`, `gb2312`, `big5`, `latin-1` in
order; the first four are stdlib codecs modelled as parameters (a partial
decode function), while `latin-1` is modelled concretely — it maps every
byte to the code point of the same value and accepts every input.  The two
lxml parses are modelled as parameters returning `none` when the library
call raises. -/

/-- The `latin-1` decode: total on arbitrary byte strings. -/
def latin1Decode (bs : List UInt8) : String :=
  ⟨bs.map (fun b => Char.ofNat b.toNat)⟩

/-- The encoding loop of `parse_xhtml` (lines 179-185): first decoder that
does not raise wins. -/
def decodeFirst : List (List UInt8 → Option String) → List UInt8 → Option String
  | [], _ => none
  | d :: rest, bs =>
    match d bs with
    | some t => some t
    | none => decodeFirst rest bs

/-- Encoding resolution with the fixed candidate list
`['utf-8', 'gbk', 'gb2312', 'big5', 'latin-1']`. -/
def resolveEncoding (utf8D gbkD gb2312D big5D : List UInt8 → Option String)
    (bs : List UInt8) : Option String :=
  decodeFirst [utf8D, gbkD, gb2312D, big5D, fun b => some (latin1Decode b)] bs

/-- The pattern of `re.sub(r'<\?xml[^>]*\?>', '', text)`. -/
def xmlDeclPat : RePat := [.lit "<?xml".data, .clsNegStar ['>'], .lit "?>".data]

/-- The pattern of the `encoding="..."` stripper of `parse_xhtml`
line 195. -/
def encodingDeclPat : RePat :=
  [.lit "encoding".data, .wsStar, .lit "=".data, .wsStar,
   .cls1 ['"', '\''], .clsNegStar ['"', '\''], .cls1 ['"', '\'']]

/-- The pre-parse text cleanup of `parse_xhtml` (lines 190-195): strip
null bytes, then the XML declaration, then inline `encoding=` declarations
(both substitutions are case-sensitive). -/
def preprocessText (s : String) : String :=
  let t1 := s.data.filter (fun c => c ≠ '\x00')
  let t2 := reSub false xmlDeclPat t1
  ⟨reSub false encodingDeclPat t2⟩

/-- `ContentCleaner.parse_xhtml` (lines 170-214) on byte input: resolve
the encoding, preprocess, try the strict XML parse, fall back to the
lenient HTML parse, and graft a non-`html` fragment root into a fresh
`html`/`body` shell.  A parser parameter returns `none` exactly when the
library call raises. -/
def parseXhtml (utf8D gbkD gb2312D big5D : List UInt8 → Option String)
    (xmlParse htmlParse : String → Option XNode) (bs : List UInt8) :
    Option XNode :=
  match resolveEncoding utf8D gbkD gb2312D big5D bs with
  | none => none
  | some text =>
    let t := preprocessText text
    match xmlParse t with
    | some root => some root
    | none =>
      match htmlParse t with
      | some root =>
        some (if !(root.tagIs "html" || root.tagIs (nsTag "html")) then
          .elem (nsTag "html") [] "" [.elem (nsTag "body") [] "" [root] ""] ""
        else root)
      | none => none

/-! ### Concrete documents for the idempotence analysis -/

/-- Whether a tag occurs anywhere in the tree (an observation separating
trees). -/
def containsTag : Nat → String → XNode → Bool
  | 0, _, _ => false
  | fuel + 1, s, .elem t _ _ ch _ => t == s || ch.any (containsTag fuel s)
  | _ + 1, _, .comment _ _ => false

/-- The parse tree of
`<html><head><title>T</title></head><body><p><span><em></em></span></p></body></html>`
(no namespace declaration, so the XML parse yields plain tags). -/
def sampleChapterDoc : XNode :=
  .elem "html" [] ""
    [ .elem "head" [] "" [.elem "title" [] "T" [] ""] "",
      .elem "body" [] ""
        [ .elem "p" [] "" [.elem "span" [] "" [.elem "em" [] "" [] ""] ""] "" ] "" ] ""

/-- `sampleChapterDoc` after one `fix_structure` + `clean_content` run:
the empty `em` is gone (the `em` pass runs after the `span` pass), but the
`span` — empty only once its `em` child was removed — survives. -/
def firstCleanResult : XNode :=
  .elem (nsTag "html") [] ""
    [ .elem (nsTag "head") [] ""
        [charsetMeta, .elem (nsTag "title") [] "T" [] ""] "",
      .elem (nsTag "body") [] ""
        [ .elem (nsTag "p") [] "" [.elem (nsTag "span") [] "" [] ""] "" ] "" ] ""

/-- `firstCleanResult` after a second `clean_content` run: the now-empty
`span` is removed as well. -/
def secondCleanResult : XNode :=
  .elem (nsTag "html") [] ""
    [ .elem (nsTag "head") [] ""
        [charsetMeta, .elem (nsTag "title") [] "T" [] ""] "",
      .elem (nsTag "body") [] "" [ .elem (nsTag "p") [] "" [] "" ] "" ] ""

/-! ## Helper lemmas -/

theorem pyReplaceFirst_of_prefix (old new s : List Char)
    (h : old.isPrefixOf s = true) :
    pyReplaceFirst old new s = new ++ s.drop old.length := by
  cases s <;> simp [pyReplaceFirst, h]

theorem pyReplaceFirst_cons_of_not_prefix (old new : List Char) (c : Char)
    (rest : List Char) (h : old.isPrefixOf (c :: rest) = false) :
    pyReplaceFirst old new (c :: rest) = c :: pyReplaceFirst old new rest := by
  simp [pyReplaceFirst, h]

theorem replaceFirst_at_first_occurrence : ∀ (pre orig suf t : List Char),
    (∀ i, i < pre.length → orig.isPrefixOf ((pre ++ (orig ++ suf)).drop i) = false) →
    pyReplaceFirst orig t (pre ++ (orig ++ suf)) = pre ++ (t ++ suf) := by
  intro pre
  induction pre with
  | nil =>
    intro orig suf t _
    have hp : orig.isPrefixOf (orig ++ suf) = true := by
      simp [List.isPrefixOf_iff_prefix]
    rw [List.nil_append, pyReplaceFirst_of_prefix _ _ _ hp, List.drop_left,
      List.nil_append]
  | cons c pre' ih =>
    intro orig suf t h
    have h0 : orig.isPrefixOf (c :: (pre' ++ (orig ++ suf))) = false := by
      simpa using h 0 (Nat.succ_pos _)
    rw [List.cons_append, pyReplaceFirst_cons_of_not_prefix _ _ _ _ h0,
      ih orig suf t (fun i hi => by simpa using h (i + 1) (Nat.succ_lt_succ hi))]
    simp

theorem foldl_set_length (v : Nat → String) : ∀ (order : List Nat) (acc : List String),
    (order.foldl (fun res i => res.set i (v i)) acc).length = acc.length := by
  intro order
  induction order with
  | nil => intro acc; rfl
  | cons j rest ih => intro acc; rw [List.foldl_cons, ih, List.length_set]

theorem foldl_set_get?_not_mem (v : Nat → String) :
    ∀ (order : List Nat) (acc : List String) (i : Nat), i ∉ order →
    (order.foldl (fun res j => res.set j (v j)) acc).get? i = acc.get? i := by
  intro order
  induction order with
  | nil => intro acc i _; rfl
  | cons j rest ih =>
    intro acc i hmem
    rw [List.foldl_cons, ih _ _ (List.not_mem_of_not_mem_cons hmem),
      List.get?_set_ne _ _ (Ne.symm (List.ne_of_not_mem_cons hmem))]

theorem foldl_set_get?_mem (v : Nat → String) :
    ∀ (order : List Nat) (acc : List String) (i : Nat), i ∈ order → i < acc.length →
    (order.foldl (fun res j => res.set j (v j)) acc).get? i = some (v i) := by
  intro order
  induction order with
  | nil => intro acc i h _; cases h
  | cons j rest ih =>
    intro acc i hmem hlt
    rw [List.foldl_cons]
    by_cases hr : i ∈ rest
    · exact ih _ _ hr (by rw [List.length_set]; exact hlt)
    · have hij : i = j := by
        rcases List.mem_cons.1 hmem with h | h
        · exact h
        · exact absurd h hr
      subst hij
      rw [foldl_set_get?_not_mem v rest _ _ hr]
      exact List.get?_set_eq_of_lt _ hlt

theorem firstUsable_none (attempt : Nat → Option String) :
    ∀ (n k : Nat), (∀ m, m < n → attemptOk (attempt (k + m)) = false) →
    firstUsable attempt k n = none := by
  intro n
  induction n with
  | zero => intro k _; rfl
  | succ n ih =>
    intro k h
    have h0 : attemptOk (attempt k) = false := h 0 (Nat.succ_pos _)
    have hrest : ∀ m, m < n → attemptOk (attempt (k + 1 + m)) = false := by
      intro m hm
      have := h (m + 1) (Nat.succ_lt_succ hm)
      rwa [show k + (m + 1) = k + 1 + m by omega] at this
    rcases ha : attempt k with _ | s
    · simp only [firstUsable, ha]
      exact ih (k + 1) hrest
    · rw [ha] at h0
      simp only [firstUsable, ha, h0, if_false]
      exact ih (k + 1) hrest

/-! ## Claims -/

/-- C1 (counterexample): a chapter whose body is `"hi"` — non-empty but of
stripped length 2, below the minimal length threshold 10 — is passed to
packaging unchanged, not replaced by the placeholder; only the warning
branch fires.  This refutes the claim that every below-threshold body is
replaced. -/
theorem claim1_counterexample :
    validateChapters ["hi"] = ["hi"] ∧ (pyStrip "hi").length < 10 ∧
    "hi" ≠ "" ∧ "hi" ≠ placeholderBody := by
  refine ⟨rfl, by decide, by decide, by decide⟩

/-- C1 (amended): the validation loop substitutes the placeholder exactly
for chapters with an empty body; a non-empty body — even one whose
stripped length is below the threshold 10 — is passed through unchanged
(with only a printed warning).  In particular the output never contains an
empty body. -/
theorem claim1_amended : ∀ content : String,
    validateContent content ≠ "" ∧
    (content = "" → validateContent content = placeholderBody) ∧
    (content ≠ "" → validateContent content = content) := by
  intro content
  by_cases hc : content = "" <;>
    simp [validateContent, placeholderBody, hc]

theorem claim1_witness :
    validateContent "" = placeholderBody ∧ validateContent "hi" = "hi" :=
  ⟨(claim1_amended "").2.1 rfl, (claim1_amended "hi").2.2 (by decide)⟩

/-- C2: the translation-application loop performs a single
first-occurrence substitution per content segment, never a replace-all.
First conjunct: when the original first occurs at the end of prefix
`pre` (no earlier match exists), `str.replace(orig, t, 1)` rewrites the
body `pre ++ orig ++ suf` to `pre ++ t ++ suf`, leaving any later
occurrences inside `suf` untouched.  Second conjunct: the spec's example —
body `<p>甲</p><p>甲</p>` with two segments both equal to `甲` translated
to `A` then `B` — yields `<p>A</p><p>B</p>`, the two occurrences replaced
independently in document order. -/
theorem claim2_first_substitution :
    (∀ (pre orig suf t : List Char),
        (∀ i, i < pre.length →
          orig.isPrefixOf ((pre ++ (orig ++ suf)).drop i) = false) →
        pyReplaceFirst orig t (pre ++ (orig ++ suf)) = pre ++ (t ++ suf)) ∧
    applyContentSegs "<p>甲</p><p>甲</p>".data
      [("甲".data, "A".data), ("甲".data, "B".data)] = "<p>A</p><p>B</p>".data :=
  ⟨replaceFirst_at_first_occurrence, by decide⟩

theorem claim2_witness :
    pyReplaceFirst "甲".data "X".data ("<p>".data ++ ("甲".data ++ "</p>".data)) =
      "<p>".data ++ ("X".data ++ "</p>".data) :=
  claim2_first_substitution.1 "<p>".data "甲".data "</p>".data "X".data (by decide)

/-- C5: `translate_texts` returns one result per input, in input order:
whatever order `as_completed` yields the worker futures in (any `order`
enumerating exactly the valid indices), the collected result list is
pointwise the outcome of worker `i` on input `i`. -/
theorem claim5_ordering : ∀ (st : EngineState) (texts : List String)
    (f : Nat → String → String) (order : List Nat),
    (∀ i, i ∈ order ↔ i < texts.length) →
    (translateTexts st texts f order).2 =
      (List.range texts.length).map (fun i => f i (texts.getD i "")) := by
  intro st texts f order h
  have hpool : poolRun texts f order =
      (List.range texts.length).map (fun i => f i (texts.getD i "")) := by
    apply List.ext_get?_iff.mpr
    intro n
    show (order.foldl (fun res j => res.set j ((fun i => f i (texts.getD i "")) j))
      (List.replicate texts.length "")).get? n = _
    by_cases hn : n < texts.length
    · rw [foldl_set_get?_mem _ order _ n ((h n).2 hn)
        (by rw [List.length_replicate]; exact hn)]
      rw [List.get?_map, List.get?_range hn]
      rfl
    · rw [foldl_set_get?_not_mem _ order _ n (fun hm => hn ((h n).1 hm))]
      rw [List.get?_eq_none.2 (by rw [List.length_replicate]; omega),
        List.get?_eq_none.2 (by rw [List.length_map, List.length_range]; omega)]
  unfold translateTexts
  by_cases he : texts.isEmpty
  · have hte : texts = [] := List.isEmpty_iff.mp he
    subst hte
    simp
  · simp only [he, if_false, Bool.false_eq_true]
    exact hpool

theorem claim5_witness :
    (translateTexts {} ["a", "b"] (fun _ s => s ++ "!") [1, 0]).2 =
      (List.range (["a", "b"] : List String).length).map
        (fun i => (fun _ s => s ++ "!") i ((["a", "b"] : List String).getD i "")) :=
  claim5_ordering {} ["a", "b"] (fun _ s => s ++ "!") [1, 0]
    (by intro i; simp [List.mem_cons]; omega)

/-- C7: when the input is non-whitespace, the flag is clear, the cache
misses, and every per-call retry attempt fails or yields an unusable
(empty/whitespace) result, `_translate_single` returns — it never
raises — the untranslated original at its index, and appends
`(index, truncated preview)` to the failure log (also bumping the error
and progress counters). -/
theorem claim7_failure_logged : ∀ (st : EngineState) (maxRetries : Nat)
    (attempt : Nat → Option String) (text : String) (index : Nat),
    st.cancelRequested = false →
    pyStrip text ≠ "" →
    cacheLookup st.cache (pyStrip text) = none →
    (∀ k, k < maxRetries → attemptOk (attempt k) = false) →
    translateSingle st maxRetries attempt text index =
      ({ st with failedTexts := st.failedTexts ++ [(index, previewOf text)],
                 errors := st.errors + 1, completed := st.completed + 1 },
        index, text) := by
  intro st mr attempt text index hc hs hcache hfail
  have ht : text ≠ "" := fun h => hs (by rw [h]; rfl)
  have htext : (text = "" || pyStrip text = "") = false := by simp [ht, hs]
  have hfu : firstUsable attempt 0 mr = none :=
    firstUsable_none attempt mr 0 (fun m hm => by simpa using hfail m hm)
  simp only [translateSingle, hc, htext, hcache, hfu, Bool.false_eq_true, if_false]

theorem claim7_witness :
    translateSingle {} 2 (fun _ => none) "你好" 7 =
      ({ failedTexts := [(7, previewOf "你好")], errors := 1, completed := 1 },
        7, "你好") :=
  claim7_failure_logged {} 2 (fun _ => none) "你好" 7 rfl (by decide) rfl
    (fun k _ => rfl)

/-- C8: the inter-pass cooldown sleeps in 1-second chunks with a
cancellation check before each chunk, so with a monotone cancellation
signal that is set by check `t`, the loop sleeps at most `t` seconds (and
never more than the full cooldown `d`): cancellation is observed within
one time-unit rather than after the whole cooldown. -/
theorem claim8_cooldown_cancel : ∀ (d : Nat) (cancelled : Nat → Bool) (t : Nat),
    (∀ i j, i ≤ j → cancelled i = true → cancelled j = true) →
    cancelled t = true →
    cooldownSlept d cancelled ≤ t ∧ cooldownSlept d cancelled ≤ d := by
  intro d
  induction d with
  | zero => intro c t _ _; exact ⟨Nat.zero_le _, Nat.zero_le _⟩
  | succ d ih =>
    intro c t hmono ht
    by_cases h0 : c 0 = true
    · simp only [cooldownSlept, h0, if_true]
      exact ⟨Nat.zero_le _, Nat.zero_le _⟩
    · have h0f : c 0 = false := by simpa using h0
      cases t with
      | zero => exact absurd ht h0
      | succ t' =>
        have hrec := ih (fun k => c (k + 1)) t'
          (fun i j hij hi => hmono (i + 1) (j + 1) (Nat.succ_le_succ hij) hi) ht
        have hun : cooldownSlept (d + 1) c = 1 + cooldownSlept d (fun k => c (k + 1)) := by
          simp only [cooldownSlept, h0f, Bool.false_eq_true, if_false]
        rw [hun]
        exact ⟨by omega, by omega⟩

theorem claim8_witness :
    cooldownSlept 60 (fun k => decide (3 ≤ k)) ≤ 3 ∧
    cooldownSlept 60 (fun k => decide (3 ≤ k)) ≤ 60 :=
  claim8_cooldown_cancel 60 (fun k => decide (3 ≤ k)) 3
    (fun i j hij hi => by
      simp only [decide_eq_true_eq] at *
      omega)
    (by decide)

/-- C10: `translate_texts` on a non-empty list starts by resetting the
per-run state: the cancellation flag is cleared, the completed counter is
zeroed, and the failure log is emptied — so an invocation started with the
flag already set behaves exactly as one started with it clear. -/
theorem claim10_reset : ∀ (st : EngineState) (texts : List String)
    (f : Nat → String → String) (order : List Nat), texts ≠ [] →
    (translateTexts st texts f order).1.cancelRequested = false ∧
    (translateTexts st texts f order).1.completed = 0 ∧
    (translateTexts st texts f order).1.failedTexts = [] ∧
    translateTexts { st with cancelRequested := true } texts f order =
      translateTexts st texts f order := by
  intro st texts f order h
  have he : texts.isEmpty = false := by
    cases texts with
    | nil => exact absurd rfl h
    | cons a l => rfl
  refine ⟨?_, ?_, ?_, ?_⟩ <;>
    simp [translateTexts, he, resetForRun]

theorem claim10_witness :
    (translateTexts { cancelRequested := true } ["你好"] (fun _ s => s) [0]).1.cancelRequested = false ∧
    (translateTexts { cancelRequested := true } ["你好"] (fun _ s => s) [0]).1.completed = 0 ∧
    (translateTexts { cancelRequested := true } ["你好"] (fun _ s => s) [0]).1.failedTexts = [] ∧
    translateTexts { ({ cancelRequested := true } : EngineState) with cancelRequested := true }
        ["你好"] (fun _ s => s) [0] =
      translateTexts { cancelRequested := true } ["你好"] (fun _ s => s) [0] :=
  claim10_reset { cancelRequested := true } ["你好"] (fun _ s => s) [0] (by decide)

theorem applyStep_length (res : List String) (p : Nat × String) :
    (applyStep res p).length = res.length := by
  unfold applyStep
  split <;> simp [List.length_set]

theorem applyStep_get?_ne (res : List String) (p : Nat × String) (i : Nat)
    (h : p.1 ≠ i) : (applyStep res p).get? i = res.get? i := by
  unfold applyStep
  split
  · exact List.get?_set_ne _ _ h
  · rfl

theorem applyFold_get?_not_mem : ∀ (pairs : List (Nat × String))
    (res : List String) (i : Nat), i ∉ pairs.map Prod.fst →
    (pairs.foldl applyStep res).get? i = res.get? i := by
  intro pairs
  induction pairs with
  | nil => intro res i _; rfl
  | cons q rest ih =>
    intro res i hmem
    have hsp : ¬(i = q.1 ∨ i ∈ rest.map Prod.fst) := by
      simpa [List.map_cons] using hmem
    push_neg at hsp
    rw [List.foldl_cons, ih _ _ hsp.2, applyStep_get?_ne _ _ _ (Ne.symm hsp.1)]

theorem applyFold_get?_at : ∀ (pairs : List (Nat × String)) (res : List String)
    (j : Nat) (hj : j < pairs.length), (pairs.map Prod.fst).Nodup →
    (pairs.get ⟨j, hj⟩).1 < res.length →
    (pairs.foldl applyStep res).get? (pairs.get ⟨j, hj⟩).1 =
      (if (pairs.get ⟨j, hj⟩).2 ≠ "" && !containsChinese (pairs.get ⟨j, hj⟩).2
       then some (pairs.get ⟨j, hj⟩).2
       else res.get? (pairs.get ⟨j, hj⟩).1) := by
  intro pairs
  induction pairs with
  | nil => intro res j hj; exact absurd hj (Nat.not_lt_zero j)
  | cons q rest ih =>
    intro res j hj hnd hlt
    rw [List.map_cons, List.nodup_cons] at hnd
    rcases j with _ | j'
    · have hg0 : (q :: rest).get ⟨0, hj⟩ = q := rfl
      rw [hg0] at hlt ⊢
      rw [List.foldl_cons, applyFold_get?_not_mem rest _ _ hnd.1]
      unfold applyStep
      split
      · exact List.get?_set_eq_of_lt _ hlt
      · rfl
    · have hj' : j' < rest.length := Nat.lt_of_succ_lt_succ hj
      have hgc : (q :: rest).get ⟨j' + 1, hj⟩ = rest.get ⟨j', hj'⟩ := rfl
      rw [hgc] at hlt ⊢
      have hqne : q.1 ≠ (rest.get ⟨j', hj'⟩).1 := by
        intro h
        exact hnd.1 (h ▸ List.mem_map_of_mem Prod.fst (List.get_mem rest j' hj'))
      rw [List.foldl_cons,
        ih (applyStep res q) j' hj' hnd.2 (by rw [applyStep_length]; exact hlt),
        applyStep_get?_ne _ _ _ hqne]

theorem failedIndices_nodup (results : List String) :
    (failedIndices results).Nodup := by
  have hsub : List.Sublist (failedIndices results) (results.enum.map Prod.fst) :=
    List.Sublist.map Prod.fst (List.filter_sublist _)
  exact (List.nodup_enum_map_fst results).sublist hsub

theorem failedIndices_lt {results : List String} {i : Nat}
    (h : i ∈ failedIndices results) : i < results.length := by
  have hsub : failedIndices results ⊆ results.enum.map Prod.fst :=
    (List.Sublist.map Prod.fst (List.filter_sublist _)).subset
  have := hsub h
  rw [List.enum_map_fst] at this
  exact List.mem_range.1 this

/-- C3 (counterexample): index 0 is a still-failing entry (its result has
six Chinese code points, above the scan threshold 5); the pass's new
output `"abc中"` is non-empty and passes the count-above-threshold test
(one Chinese code point, not more than 5), yet the code does not overwrite
the entry — the overwrite test is `not is_chinese_fn(...)`, a presence
test, not the scan's count test.  This refutes the claimed "if and only
if". -/
theorem claim3_counterexample :
    failedIndices ["中中中中中中"] = [0] ∧
    "abc中" ≠ "" ∧ ¬(containsChinese "abc中" = true ∧ countChinese "abc中" > 5) ∧
    countChinese "abc中" ≤ 5 ∧
    applyImproved ["中中中中中中"] [0] ["abc中"] = ["中中中中中中"] := by
  refine ⟨by decide, by decide, by decide, by decide, by decide⟩

/-- C3 (amended): in the overwrite step of a retry pass, the entry at the
`j`-th still-failing index is overwritten exactly when the pass's `j`-th
output is non-empty and contains no source-language (Chinese) code point
at all — a presence test stricter than the scan's count-above-5 test; all
other entries are left unchanged. -/
theorem claim3_amended : ∀ (results retryRes : List String) (j : Nat),
    j < (failedIndices results).length →
    retryRes.length = (failedIndices results).length →
    ((applyImproved results (failedIndices results) retryRes).get?
        ((failedIndices results).getD j 0) =
      (if retryRes.getD j "" ≠ "" && !containsChinese (retryRes.getD j "")
       then some (retryRes.getD j "")
       else results.get? ((failedIndices results).getD j 0))) ∧
    (∀ k, k ∉ failedIndices results →
      (applyImproved results (failedIndices results) retryRes).get? k =
        results.get? k) := by
  intro results rr j hj hlen
  have hjr : j < rr.length := by omega
  have hjz : j < ((failedIndices results).zip rr).length := by
    rw [List.length_zip]; omega
  have hfst : ((failedIndices results).zip rr).map Prod.fst = failedIndices results :=
    List.map_fst_zip _ _ (by omega)
  constructor
  · have hzg : ((failedIndices results).zip rr).get ⟨j, hjz⟩ =
        ((failedIndices results).get ⟨j, hj⟩, rr.get ⟨j, hjr⟩) := by
      rw [List.get_zip]
    have hilt : (((failedIndices results).zip rr).get ⟨j, hjz⟩).1 < results.length := by
      rw [hzg]
      exact failedIndices_lt (List.get_mem (failedIndices results) j hj)
    have hmain := applyFold_get?_at ((failedIndices results).zip rr) results j hjz
      (by rw [hfst]; exact failedIndices_nodup results) hilt
    rw [hzg] at hmain
    have hgd1 : (failedIndices results).getD j 0 = (failedIndices results).get ⟨j, hj⟩ := by
      rw [List.getD_eq_get?, List.get?_eq_get hj]; rfl
    have hgd2 : rr.getD j "" = rr.get ⟨j, hjr⟩ := by
      rw [List.getD_eq_get?, List.get?_eq_get hjr]; rfl
    rw [applyImproved, hgd1, hgd2]
    exact hmain
  · intro k hk
    rw [applyImproved, applyFold_get?_not_mem _ _ _ (by rw [hfst]; exact hk)]

theorem claim3_witness :
    ((applyImproved ["中中中中中中", "ok"] (failedIndices ["中中中中中中", "ok"])
        ["done"]).get? ((failedIndices ["中中中中中中", "ok"]).getD 0 0) =
      (if ("done" : String) ≠ "" && !containsChinese "done"
       then some "done"
       else (["中中中中中中", "ok"] : List String).get?
         ((failedIndices ["中中中中中中", "ok"]).getD 0 0))) ∧
    (∀ k, k ∉ failedIndices ["中中中中中中", "ok"] →
      (applyImproved ["中中中中中中", "ok"] (failedIndices ["中中中中中中", "ok"])
          ["done"]).get? k = (["中中中中中中", "ok"] : List String).get? k) := by
  have h := claim3_amended ["中中中中中中", "ok"] ["done"] 0 (by decide) (by decide)
  exact ⟨h.1, h.2⟩

theorem getStep_workerSteps_cases : ∀ p, getStep workerSteps p = 0 ∨ 5 ≤ getStep workerSteps p := by
  intro p
  unfold getStep
  have h5 : min p (workerSteps.length - 1) ≤ 5 := by
    rw [show workerSteps.length - 1 = 5 from rfl]
    omega
  generalize hm : min p (workerSteps.length - 1) = m at h5 ⊢
  interval_cases m <;> decide

/-- C4 (counterexample): with the stall counter reaching 3 on pass 5, the
code forces `cooldown = 90`, `interval = 2.5 s` (`25` tenths) and
`workers_cap = 3` — none of which appear in the escalation tables, whose
most conservative entries are cooldown `60`, interval `2.0 s` and worker
cap `5` (the table's `0` is the use-initial-workers sentinel).  This
refutes the claim that the forced parameters are the tables' own
conservative ends. -/
theorem claim4_counterexample :
    (passSettings 5 (some 4) 4 2).stallCount = 3 ∧
    (passSettings 5 (some 4) 4 2).workersCap = 3 ∧ 3 ∉ workerSteps ∧
    (passSettings 5 (some 4) 4 2).interval10 = 25 ∧ 25 ∉ intervalSteps10 ∧
    (passSettings 5 (some 4) 4 2).cooldown = 90 ∧ 90 ∉ cooldownSteps ∧
    (∀ x ∈ cooldownSteps, x ≤ 60) ∧ (∀ x ∈ intervalSteps10, x ≤ 20) ∧
    (∀ x ∈ workerSteps, x = 0 ∨ 5 ≤ x) := by
  decide

/-- C4 (amended): the stall counter increments exactly when a previous
pass exists and the failing count did not strictly decrease (else it
resets to 0); once the incremented counter has reached 3, the pass is
forced beyond the conservative end of every table: worker cap exactly 3
(below the table minimum 5), interval raised to at least 2.5 s (above the
table maximum 2.0 s) and cooldown raised to at least 90 s (above the table
maximum 60 s). -/
theorem claim4_amended : ∀ (retryPass p cur stall : Nat),
    (passSettings retryPass (some p) cur stall).stallCount =
      (if cur ≥ p then stall + 1 else 0) ∧
    (passSettings retryPass none cur stall).stallCount = 0 ∧
    (cur ≥ p → 3 ≤ stall + 1 →
      (passSettings retryPass (some p) cur stall).workersCap = 3 ∧
      (passSettings retryPass (some p) cur stall).interval10 =
        max (getStep intervalSteps10 retryPass) 25 ∧
      (passSettings retryPass (some p) cur stall).cooldown =
        max (getStep cooldownSteps retryPass) 90 ∧
      25 ≤ (passSettings retryPass (some p) cur stall).interval10 ∧
      90 ≤ (passSettings retryPass (some p) cur stall).cooldown) := by
  intro rp p cur stall
  refine ⟨?_, rfl, ?_⟩
  · by_cases hcp : cur ≥ p
    · simp only [passSettings, if_pos hcp]
      split <;> rfl
    · simp only [passSettings, if_neg hcp]
  · intro h1 h2
    have hps : passSettings rp (some p) cur stall =
        ⟨min (if getStep workerSteps rp = 0 then 3 else getStep workerSteps rp) 3,
         max (getStep intervalSteps10 rp) 25, max (getStep cooldownSteps rp) 90,
         getStep extraRetrySteps rp, stall + 1⟩ := by
      simp only [passSettings, if_pos h1, if_pos h2]
    rw [hps]
    refine ⟨?_, rfl, rfl, Nat.le_max_right _ _, Nat.le_max_right _ _⟩
    show min (if getStep workerSteps rp = 0 then 3 else getStep workerSteps rp) 3 = 3
    rcases getStep_workerSteps_cases rp with hw | hw
    · rw [hw]
      decide
    · rw [if_neg (by omega)]
      exact Nat.min_eq_right (by omega)

theorem claim4_witness :
    (passSettings 1 (some 4) 4 2).stallCount = (if 4 ≥ 4 then 2 + 1 else 0) ∧
    (passSettings 1 (some 4) 4 2).workersCap = 3 :=
  ⟨(claim4_amended 1 4 4 2).1, ((claim4_amended 1 4 4 2).2.2 (by decide) (by decide)).1⟩

/-- C6 (counterexample): the content-cleaning stage is not idempotent, so
neither is the normalize pipeline.  For the parse tree of
`<html><head><title>T</title></head><body><p><span><em></em></span></p></body></html>`,
one `fix_structure` + `clean_content` run removes the empty `em` (its pass
runs after the `span` pass, so the `span` — empty only from that moment —
survives), while a second `clean_content` run removes the `span`: running
the cleaner on its own output changes it again. -/
theorem claim6_counterexample :
    cleanContent 32 defaultWatermarks (normalizeTree 32 defaultWatermarks sampleChapterDoc) ≠
      normalizeTree 32 defaultWatermarks sampleChapterDoc := by
  intro h
  have h2 := congrArg (containsTag 32 (nsTag "span")) h
  rw [show containsTag 32 (nsTag "span")
        (cleanContent 32 defaultWatermarks
          (normalizeTree 32 defaultWatermarks sampleChapterDoc)) = false from rfl,
      show containsTag 32 (nsTag "span")
        (normalizeTree 32 defaultWatermarks sampleChapterDoc) = true from rfl] at h2
  exact Bool.noConfusion h2

/-- C6 (amended): normalization is not idempotent in general.  A nested
empty inline wrapper is removed one level per run (the inner `em` on the
first run, the then-empty `span` only on the second), and watermark
removal can splice text into a fresh watermark match that only the next
run deletes (`twktwkan.coman.com` → `twkan.com` → `""`); a second run of
the content-cleaning stage can therefore change the output again. -/
theorem claim6_amended :
    normalizeTree 32 defaultWatermarks sampleChapterDoc = firstCleanResult ∧
    cleanContent 32 defaultWatermarks firstCleanResult = secondCleanResult ∧
    containsTag 32 (nsTag "span") firstCleanResult = true ∧
    containsTag 32 (nsTag "span") secondCleanResult = false ∧
    cleanText defaultWatermarks "twktwkan.coman.com" = "twkan.com" ∧
    cleanText defaultWatermarks "twkan.com" = "" :=
  ⟨rfl, rfl, rfl, rfl, rfl, rfl⟩

theorem decodeFirst_isSome_of_total :
    ∀ (ds : List (List UInt8 → Option String)) (d : List UInt8 → Option String),
    (∀ bs, (d bs).isSome = true) → ∀ bs, (decodeFirst (ds ++ [d]) bs).isSome = true := by
  intro ds
  induction ds with
  | nil =>
    intro d hd bs
    have hds := hd bs
    rcases h : d bs with _ | t
    · rw [h] at hds
      exact absurd hds (by decide)
    · simp [decodeFirst, h]
  | cons d1 rest ih =>
    intro d hd bs
    rcases h : d1 bs with _ | t
    · simp only [List.cons_append, decodeFirst, h]
      exact ih d hd bs
    · simp [decodeFirst, h]

/-- C9: the encoding-resolution step of `parse_xhtml` never fails —
whatever the `utf-8`/`gbk`/`gb2312`/`big5` codecs do, the final `latin-1`
candidate decodes every byte string, so some text is always produced
(first conjunct); consequently `parse_xhtml` returns `None` only when the
strict XML parse and the lenient HTML fallback both raise, never because
of a decode failure (second conjunct). -/
theorem claim9_decode_total :
    (∀ (utf8D gbkD gb2312D big5D : List UInt8 → Option String) (bs : List UInt8),
      (resolveEncoding utf8D gbkD gb2312D big5D bs).isSome = true) ∧
    (∀ (utf8D gbkD gb2312D big5D : List UInt8 → Option String)
      (xmlParse htmlParse : String → Option XNode) (bs : List UInt8) (t : String),
      resolveEncoding utf8D gbkD gb2312D big5D bs = some t →
      parseXhtml utf8D gbkD gb2312D big5D xmlParse htmlParse bs = none →
      xmlParse (preprocessText t) = none ∧ htmlParse (preprocessText t) = none) := by
  constructor
  · intro d1 d2 d3 d4 bs
    have hr : resolveEncoding d1 d2 d3 d4 bs =
        decodeFirst ([d1, d2, d3, d4] ++ [fun b => some (latin1Decode b)]) bs := rfl
    rw [hr]
    exact decodeFirst_isSome_of_total [d1, d2, d3, d4]
      (fun b => some (latin1Decode b)) (fun _ => rfl) bs
  · intro d1 d2 d3 d4 xP hP bs t hres hnone
    unfold parseXhtml at hnone
    simp only [hres] at hnone
    rcases hx : xP (preprocessText t) with _ | root
    · simp only [hx] at hnone
      rcases hh : hP (preprocessText t) with _ | root2
      · exact ⟨rfl, rfl⟩
      · simp only [hh] at hnone
        exact Option.noConfusion hnone
    · simp only [hx] at hnone
      exact Option.noConfusion hnone

theorem claim9_witness :
    resolveEncoding (fun _ => none) (fun _ => none) (fun _ => none) (fun _ => none)
        [(65 : UInt8)] = some "A" ∧
    parseXhtml (fun _ => none) (fun _ => none) (fun _ => none) (fun _ => none)
        (fun _ => none) (fun _ => none) [(65 : UInt8)] = none ∧
    ((fun _ : String => (none : Option XNode)) (preprocessText "A") = none ∧
      (fun _ : String => (none : Option XNode)) (preprocessText "A") = none) :=
  ⟨rfl, rfl,
    claim9_decode_total.2 (fun _ => none) (fun _ => none) (fun _ => none)
      (fun _ => none) (fun _ => none) (fun _ => none) [(65 : UInt8)] "A" rfl rfl⟩

end NovelDL
